import Mathlib

/-!
Verification development for the yuptoo report processor
(`yuptoo/processor/report_processor.py`).

The Python module is shallowly embedded below.  Semi-structured JSON
values are modelled by `JValue`; Python dictionaries appearing as hosts
and report-slice documents are association lists (`Doc`).  Library
behaviour that the module merely observes (tar member reading, UTF-8
decoding, JSON parsing, the Kafka producer) is modelled by the observable
outcome the Python code branches on (`EntryData`, `KafkaBehavior`).
-/

namespace Yuptoo

/-- JSON-like values as produced by `json.loads`. -/
inductive JValue where
  | jNull
  | jBool (b : Bool)
  | jStr (s : String)
  | jNum (n : Int)
  | jArr (xs : List JValue)
  | jObj (fields : List (String × JValue))

/-- An association-list model of a Python dict with string keys. -/
abbrev Doc := List (String × JValue)

/-- A host record: one field bag from a report slice. -/
abbrev Host := Doc

/-- Python `d.get(k)`: the value at the first matching key, if any. -/
def getField (d : Doc) (k : String) : Option JValue :=
  match d with
  | [] => none
  | (k', v) :: rest => if k' == k then some v else getField rest k

/-- Python `d[k] = v`: replace the value at `k`, or append the pair. -/
def setField (d : Doc) (k : String) (v : JValue) : Doc :=
  match d with
  | [] => [(k, v)]
  | (k', v') :: rest => if k' == k then (k, v) :: rest else (k', v') :: setField rest k v

/-- Python truthiness of a JSON value (`if host.get(fact):`). -/
def JValue.truthy : JValue → Bool
  | .jNull => false
  | .jBool b => b
  | .jStr s => !s.isEmpty
  | .jNum n => n != 0
  | .jArr xs => !xs.isEmpty
  | .jObj fs => !fs.isEmpty

/-- Python `==` between a JSON value and a `str` (false on non-strings). -/
def JValue.eqStr : JValue → String → Bool
  | .jStr t, s => t == s
  | _, _ => false

/-- Python `len()` on a JSON value; `none` models a `TypeError`. -/
def jLen : JValue → Option Nat
  | .jStr s => some s.length
  | .jArr xs => some xs.length
  | .jObj fs => some fs.length
  | _ => none

/-- Leading-segment test on character lists, used for substring search. -/
def listLeadsWith : List Char → List Char → Bool
  | [], _ => true
  | _ :: _, [] => false
  | a :: as, b :: bs => a == b && listLeadsWith as bs

/-- Python `needle in hay` on strings: substring containment. -/
def strContains (hay needle : String) : Bool :=
  hay.data.tails.any (fun t => listLeadsWith needle.data t)

/-!
`extract_report_slices` (source lines 199-292).

A tar member's content is embedded by the outcome the Python code
observes when it extracts, decodes and parses it: `readError` models an
unexpected exception from `tar.extractfile`/`read` (caught only by the
outermost `except Exception`); `decodeError` models `UnicodeDecodeError`
from `.decode('utf-8')`; `parseError` models `ValueError` from
`json.loads`; `parsed doc` is a successfully parsed JSON object.
-/

/-- Observable outcome of extracting, decoding and parsing one member. -/
inductive EntryData where
  | readError
  | decodeError
  | parseError
  | parsed (doc : Doc)

/-- One member of the tar archive. -/
structure TarMember where
  name : String
  data : EntryData

/-- The manifest-file test: `'/metadata.json' in file.name or file.name == 'metadata.json'`. -/
def isMetadataName (n : String) : Bool :=
  strContains n "/metadata.json" || n == "metadata.json"

/-- The member scan (source lines 211-217): loop over all members,
keeping the last metadata match in `metadata_file` and appending every
other member whose name contains `.json` to `json_files`. -/
def scanLoop (meta : Option TarMember) (js : List TarMember) : List TarMember → Option TarMember × List TarMember
  | [] => (meta, js)
  | f :: fs =>
      if isMetadataName f.name then scanLoop (some f) js fs
      else if strContains f.name ".json" then scanLoop meta (js ++ [f]) fs
      else scanLoop meta js fs

/-- Outcome of the inner matching loops (source lines 221-275): `done`
is normal completion with the accumulated `report_files`; `parseAbort`
is a `ValueError` escaping to line 276; `unexpectedAbort` is any other
exception escaping to the outermost handler at line 289. -/
inductive InnerOutcome where
  | done (acc : List Doc)
  | parseAbort
  | unexpectedAbort

/-- The inner loop over `json_files` for one manifest entry
`(report_id, num_hosts)` (source lines 222-274): a member whose name
does not contain `report_id` is ignored; a `UnicodeDecodeError` skips
the member (`continue`, line 240); a JSON `ValueError` aborts;
otherwise the parsed document is kept iff its self-declared
`report_slice_id` equals `report_id` and `len(hosts)` equals
`num_hosts`, and discarded with a warning otherwise (`continue`,
line 271). -/
def processFilesForId (report_id : String) (num_hosts : Nat) : List TarMember → List Doc → InnerOutcome
  | [], acc => .done acc
  | f :: fs, acc =>
      if strContains f.name report_id then
        match f.data with
        | .readError => .unexpectedAbort
        | .decodeError => processFilesForId report_id num_hosts fs acc
        | .parseError => .parseAbort
        | .parsed doc =>
            let report_slice_id := (getField doc "report_slice_id").getD (.jStr "")
            let hosts := (getField doc "hosts").getD (.jObj [])
            match jLen hosts with
            | none => .unexpectedAbort
            | some l =>
                if report_slice_id.eqStr report_id && l == num_hosts then
                  processFilesForId report_id num_hosts fs (acc ++ [doc])
                else
                  processFilesForId report_id num_hosts fs acc
      else processFilesForId report_id num_hosts fs acc

/-- The outer loop over `valid_slice_ids.items()` (source line 221). -/
def processManifest : List (String × Nat) → List TarMember → List Doc → InnerOutcome
  | [], _, acc => .done acc
  | (rid, n) :: rest, jfs, acc =>
      match processFilesForId rid n jfs acc with
      | .done acc' => processManifest rest jfs acc'
      | .parseAbort => .parseAbort
      | .unexpectedAbort => .unexpectedAbort

/-- Result of `extract_report_slices`: the returned list of slice
documents, a raised `FailExtractException`, or the bare `None` return
produced when an unexpected exception is logged at line 290 and the
function falls off its end. -/
inductive ExtractOutcome where
  | slices (l : List Doc)
  | failExtract
  | noneReturned

/-- `extract_report_slices` (source lines 199-292).  `archive = none`
models a byte string `tarfile.open` rejects with `tarfile.ReadError`
(converted to `FailExtractException` at line 286).  `manifest` is the
mapping returned by the external collaborator `validate_metadata_file`
(out of scope per the spec: it yields slice identifier to declared host
count). -/
def extract_report_slices (archive : Option (List TarMember)) (manifest : List (String × Nat)) : ExtractOutcome :=
  match archive with
  | none => .failExtract
  | some files =>
      let scanned := scanLoop none [] files
      if !scanned.2.isEmpty && scanned.1.isSome then
        match processManifest manifest scanned.2 [] with
        | .done acc => .slices acc
        | .parseAbort => .failExtract
        | .unexpectedAbort => .noneReturned
      else .failExtract

/-!
`has_canonical_facts` and the publisher
(source lines 97-104, 107-162).
-/

/-- The seven identity-fact keys (source lines 98-99). -/
def CANONICAL_FACTS : List String :=
  ["insights_client_id", "bios_uuid", "ip_addresses", "mac_addresses",
   "vm_uuid", "etc_machine_id", "subscription_manager_id"]

/-- `has_canonical_facts` (source lines 97-104): true iff the loop over
`CANONICAL_FACTS` hits a key whose value `host.get(fact)` is truthy. -/
def has_canonical_facts (host : Host) : Bool :=
  CANONICAL_FACTS.any fun fact =>
    match getField host fact with
    | some v => v.truthy
    | none => false

/-- Request context built at source lines 17-21.  The field
`report_platform_id` is Modelled from the spec: it is the report
identifier that `validate_metadata_file` (the external
manifest-validation collaborator, absent from the sources) places in the
request context; the processor reads it at lines 52, 94 and 124. -/
structure RequestObj where
  account : JValue
  b64_identity : JValue
  request_id : JValue
  report_platform_id : JValue

/-- Platform metadata of the outbound envelope (source lines 113-114). -/
structure PlatformMetadata where
  request_id : JValue
  b64_identity : JValue

/-- The outbound envelope `upload_msg` (source lines 110-115). -/
structure UploadMsg where
  operation : String
  data : Host
  platform_metadata : PlatformMetadata

/-- Construction of `upload_msg` (source lines 110-115).  `none` models
the `KeyError` raised by `host['system_unique_id']` when the key is
absent. -/
def buildUploadMsg (host : Host) (req : RequestObj) : Option UploadMsg :=
  match getField host "system_unique_id" with
  | none => none
  | some v =>
      some { operation := "add_host", data := host,
             platform_metadata := { request_id := v, b64_identity := req.b64_identity } }

/-- Behaviour of the external Kafka producer during `send_message`:
produce/poll succeed, raise `KafkaException`, or raise some other
exception. -/
inductive KafkaBehavior where
  | ok
  | kafkaExc
  | otherExc

/-- How `send_message` terminates: a normal return or an escaping
exception. -/
inductive SendResult where
  | sent
  | raised

/-- `send_message` (source lines 145-162): a `KafkaException` is caught
at line 157 and only logged, after which the function returns normally
through the `finally` flush; any other exception escapes. -/
def send_message (behavior : KafkaBehavior) : SendResult :=
  match behavior with
  | .ok => .sent
  | .kafkaExc => .sent
  | .otherExc => .raised

/-- Result of `upload_to_host_inventory_via_kafka`: normal return with
the message that was handed to `send_message`, a raised
`KafkaMsgHandlerError`, or an uncaught `KeyError` raised from inside the
`except` block itself. -/
inductive UploadOutcome where
  | ok (msg : UploadMsg)
  | kafkaMsgHandlerError
  | uncaughtKeyError

/-- The `except` block at source lines 118-124: constructing the
`KafkaMsgHandlerError` evaluates `host['account']` (line 124), so a host
without an `account` key makes the handler itself raise `KeyError`.
(`request_obj['report_platform_id']` is always present, see
`RequestObj`.) -/
def exceptBlock (host : Host) : UploadOutcome :=
  match getField host "account" with
  | some _ => .kafkaMsgHandlerError
  | none => .uncaughtKeyError

/-- `upload_to_host_inventory_via_kafka` (source lines 107-124): build
the envelope and call `send_message`; any exception raised in the `try`
body reaches the `except` block. -/
def upload_to_host_inventory_via_kafka (host : Host) (req : RequestObj) (behavior : KafkaBehavior) : UploadOutcome :=
  match buildUploadMsg host req with
  | some msg =>
      match send_message behavior with
      | .sent => .ok msg
      | .raised => exceptBlock host
  | none => exceptBlock host

/-!
The per-slice loop of `process_report` (source lines 26-74).

The preceding download and extraction steps are modelled separately
(`extract_report_slices` above); `process_report` below consumes the
accepted-slices list.  The local variable `transformed_obj` is assigned
only inside the `if HOSTS_TRANSFORMATION_ENABLED:` branch (line 40) yet
read unconditionally at line 47; it is therefore modelled as an
`Option Unit` threaded through the loops exactly as a Python local,
where `none` means "never assigned" and reading it then raises
`UnboundLocalError`.  Fresh `uuid.uuid4()` values are modelled by a
counter.  The transformation chain (external `yuptoo.modifiers`
modules, absent from the sources) is a parameter `chain` applied to the
host when transformation is enabled.
-/

/-- How one run of the per-slice loop terminates. -/
inductive TermKind where
  | normal
  | qpcReportException
  | unboundLocalError
  | kafkaMsgHandlerError
  | keyError
  | typeError
deriving DecidableEq

/-- Result of the per-slice loop: every envelope handed to
`send_message`, in order, and the way the loop terminated. -/
structure ProcResult where
  published : List UploadMsg
  term : TermKind

/-- Python iteration over the value of `report_slice.get('hosts', [])`:
arrays yield their elements, dicts yield their keys, strings yield their
characters; other values raise `TypeError`. -/
def iterElems : JValue → Option (List JValue)
  | .jArr xs => some xs
  | .jObj fs => some (fs.map fun p => .jStr p.1)
  | .jStr s => some (s.data.map fun c => .jStr (String.mk [c]))
  | _ => none

/-- Mutable locals of the host loop (source lines 29-33): the
`transformed_obj` binding state, the uuid counter, the length of
`candidate_hosts`, the envelopes published so far, and a pending
uncaught exception. -/
structure HostsLoopState where
  tobj : Option Unit
  k : Nat
  cand : Nat
  published : List UploadMsg
  err : Option TermKind

/-- The host loop of one slice (source lines 32-54): assign
`yupana_host_id`, classify via `has_canonical_facts`; for a candidate,
set `report_slice_id`, run the chain when enabled (which also binds
`transformed_obj`), read `transformed_obj` in
`print_transformed_info` (line 47), then publish.  A non-dict host value
raises `TypeError` at the item assignment of line 34. -/
def processHosts (req : RequestObj) (behavior : KafkaBehavior) (enabled : Bool) (chain : Host → Host) (sliceId : JValue) : List JValue → HostsLoopState → HostsLoopState
  | [], s => s
  | hv :: rest, s =>
      match hv with
      | .jObj host0 =>
          let host1 := setField host0 "yupana_host_id" (.jStr ("uuid-" ++ toString s.k))
          if has_canonical_facts host1 then
            let host2 := setField host1 "report_slice_id" sliceId
            let step := if enabled then (some (), chain host2) else (s.tobj, host2)
            match step.1 with
            | none =>
                { s with tobj := step.1, k := s.k + 1, cand := s.cand + 1,
                         err := some .unboundLocalError }
            | some _ =>
                match upload_to_host_inventory_via_kafka step.2 req behavior with
                | .ok msg =>
                    processHosts req behavior enabled chain sliceId rest
                      { tobj := step.1, k := s.k + 1, cand := s.cand + 1,
                        published := s.published ++ [msg], err := none }
                | .kafkaMsgHandlerError =>
                    { s with tobj := step.1, k := s.k + 1, cand := s.cand + 1,
                             err := some .kafkaMsgHandlerError }
                | .uncaughtKeyError =>
                    { s with tobj := step.1, k := s.k + 1, cand := s.cand + 1,
                             err := some .keyError }
          else
            processHosts req behavior enabled chain sliceId rest { s with k := s.k + 1 }
      | _ => { s with err := some .typeError }

/-- The slice loop of `process_report` (source lines 26-74): per slice,
read `hosts` (default `[]`), run the host loop, and raise
`QPCReportException` at line 74 when this slice produced an empty
`candidate_hosts` list. -/
def process_report_loop (req : RequestObj) (behavior : KafkaBehavior) (enabled : Bool) (chain : Host → Host) : List Doc → Option Unit → Nat → List UploadMsg → ProcResult
  | [], _, _, pub => { published := pub, term := .normal }
  | doc :: rest, tobj, k, pub =>
      match iterElems ((getField doc "hosts").getD (.jArr [])) with
      | none => { published := pub, term := .typeError }
      | some hvs =>
          let sliceId := (getField doc "report_slice_id").getD .jNull
          let s := processHosts req behavior enabled chain sliceId hvs
                     { tobj := tobj, k := k, cand := 0, published := pub, err := none }
          match s.err with
          | some e => { published := s.published, term := e }
          | none =>
              if s.cand == 0 then { published := s.published, term := .qpcReportException }
              else process_report_loop req behavior enabled chain rest s.tobj s.k s.published

/-- `process_report` from the accepted-slices list on (source lines
26-74), with the configuration flag `HOSTS_TRANSFORMATION_ENABLED`, the
composite modifier chain and the Kafka behaviour as parameters. -/
def process_report (slices : List Doc) (enabled : Bool) (chain : Host → Host) (req : RequestObj) (behavior : KafkaBehavior) : ProcResult :=
  process_report_loop req behavior enabled chain slices none 0 []

/-!
Concrete fixtures used by witnesses and counterexamples.
-/

/-- A host carrying one canonical fact plus the fields the publisher
reads. -/
def cHostA : Host :=
  [("bios_uuid", .jStr "X"), ("system_unique_id", .jStr "u1"), ("account", .jStr "a1")]

/-- A host with no canonical fact. -/
def cHostB : Host := [("foo", .jStr "bar")]

/-- A slice document whose single host is a candidate. -/
def cDocA : Doc := [("report_slice_id", .jStr "s1"), ("hosts", .jArr [.jObj cHostA])]

/-- A slice document whose single host has no canonical facts. -/
def cDocB : Doc := [("report_slice_id", .jStr "s2"), ("hosts", .jArr [.jObj cHostB])]

/-- A concrete request context. -/
def req0 : RequestObj := ⟨.jStr "acct", .jStr "b64id", .jStr "reqid", .jStr "platid"⟩

/-- An archive with a manifest entry and one data entry whose name
contains no manifest slice identifier. -/
def cFiles5 : List TarMember :=
  [⟨"metadata.json", .parsed []⟩,
   ⟨"slice_other.json", .parsed [("report_slice_id", .jStr "s1"), ("hosts", .jArr [.jObj cHostA])]⟩]

/-!
Claim theorems.
-/

/-- C2: a record is classified as a candidate iff at least one of the
seven identity-fact keys is present with a truthy (non-empty) value;
this holds for arbitrary records, hence independently of which fact is
set and of any extra unrelated fields. -/
theorem has_canonical_facts_iff (host : Host) :
    has_canonical_facts host = true ↔
      ∃ fact, fact ∈ CANONICAL_FACTS ∧ ∃ v, getField host fact = some v ∧ v.truthy = true := by
  unfold has_canonical_facts
  rw [List.any_eq_true]
  constructor
  · rintro ⟨fact, hf, hp⟩
    rcases hg : getField host fact with _ | v
    · rw [hg] at hp
      exact absurd hp (by simp)
    · rw [hg] at hp
      exact ⟨fact, hf, v, hg, hp⟩
  · rintro ⟨fact, hf, v, hg, hv⟩
    refine ⟨fact, hf, ?_⟩
    rw [hg]
    exact hv

/-- C3: with `HOSTS_TRANSFORMATION_ENABLED = false`, processing a slice
holding one candidate record terminates with `UnboundLocalError` (the
local `transformed_obj` is assigned only inside the enabled branch at
line 40 but read at line 47) and the record is never published. -/
theorem transformation_disabled_raises_unbound_local :
    (process_report [cDocA] false (fun x => x) req0 .ok).term = .unboundLocalError ∧
    (process_report [cDocA] false (fun x => x) req0 .ok).published = [] :=
  ⟨rfl, rfl⟩

/-- C4 counterexample: a `KafkaException` raised while submitting the
message is caught inside `send_message` (line 157), only logged, and the
publication returns normally — it is neither converted into a
`KafkaMsgHandlerError` nor re-raised. -/
theorem kafka_exception_swallowed :
    upload_to_host_inventory_via_kafka cHostA req0 .kafkaExc
        = .ok ⟨"add_host", cHostA, ⟨.jStr "u1", .jStr "b64id"⟩⟩ ∧
    upload_to_host_inventory_via_kafka cHostA req0 .kafkaExc ≠ .kafkaMsgHandlerError :=
  ⟨rfl, fun h => nomatch h⟩

/-- C4 amended: for a record holding an `account` field, an exception
that escapes `send_message` (any non-`KafkaException`) and a `KeyError`
during envelope construction are converted into `KafkaMsgHandlerError`
and re-raised; a `KafkaException` raised during submission, however, is
swallowed inside `send_message` and the publication returns normally. -/
theorem upload_error_conversion (host : Host) (req : RequestObj)
    (hacc : (getField host "account").isSome = true) :
    upload_to_host_inventory_via_kafka host req .otherExc = .kafkaMsgHandlerError ∧
    (getField host "system_unique_id" = none →
      upload_to_host_inventory_via_kafka host req .ok = .kafkaMsgHandlerError) ∧
    ∀ v, getField host "system_unique_id" = some v →
      upload_to_host_inventory_via_kafka host req .kafkaExc
        = .ok ⟨"add_host", host, ⟨v, req.b64_identity⟩⟩ := by
  obtain ⟨a, ha⟩ := Option.isSome_iff_exists.mp hacc
  refine ⟨?_, ?_, ?_⟩
  · rcases hg : getField host "system_unique_id" with _ | v <;>
      simp [upload_to_host_inventory_via_kafka, buildUploadMsg, send_message, exceptBlock, hg, ha]
  · intro hg
    simp [upload_to_host_inventory_via_kafka, buildUploadMsg, exceptBlock, hg, ha]
  · intro v hg
    simp [upload_to_host_inventory_via_kafka, buildUploadMsg, send_message, hg]

/-- C4 amended, instantiated: a missing `system_unique_id` on a host
with an `account` field yields the typed publish error. -/
theorem upload_error_conversion_witness :
    upload_to_host_inventory_via_kafka [("account", JValue.jStr "a1")] req0 .ok
      = .kafkaMsgHandlerError :=
  (upload_error_conversion [("account", JValue.jStr "a1")] req0 rfl).2.1 rfl

/-- C9: whenever `upload_to_host_inventory_via_kafka` returns normally,
the envelope it handed to `send_message` has operation `"add_host"`,
data equal to the record itself, and platform metadata made of the
record's `system_unique_id` and the request context's `b64_identity`. -/
theorem published_envelope_shape (host : Host) (req : RequestObj)
    (behavior : KafkaBehavior) (msg : UploadMsg)
    (h : upload_to_host_inventory_via_kafka host req behavior = .ok msg) :
    ∃ v, getField host "system_unique_id" = some v ∧
      msg = ⟨"add_host", host, ⟨v, req.b64_identity⟩⟩ := by
  unfold upload_to_host_inventory_via_kafka buildUploadMsg at h
  rcases hg : getField host "system_unique_id" with _ | v
  · rw [hg] at h
    unfold exceptBlock at h
    cases hA : getField host "account" <;> rw [hA] at h <;> simp at h
  · rw [hg] at h
    cases hs : send_message behavior
    · rw [hs] at h
      refine ⟨v, rfl, ?_⟩
      cases h
      rfl
    · rw [hs] at h
      unfold exceptBlock at h
      cases hA : getField host "account" <;> rw [hA] at h <;> simp at h

/-- C9, instantiated at a concrete host. -/
theorem published_envelope_shape_witness :
    ∃ v, getField cHostA "system_unique_id" = some v ∧
      (⟨"add_host", cHostA, ⟨.jStr "u1", .jStr "b64id"⟩⟩ : UploadMsg)
        = ⟨"add_host", cHostA, ⟨v, req0.b64_identity⟩⟩ :=
  published_envelope_shape cHostA req0 .ok ⟨"add_host", cHostA, ⟨.jStr "u1", .jStr "b64id"⟩⟩ rfl

/-- Closed form of the member scan: the metadata slot holds the last
metadata-named member and `json_files` collects, in order, the
non-metadata members whose name contains `.json`. -/
theorem scanLoop_eq (files : List TarMember) :
    ∀ (meta : Option TarMember) (js : List TarMember),
      scanLoop meta js files =
        (files.foldl (fun acc f => if isMetadataName f.name then some f else acc) meta,
         js ++ files.filter (fun f => !isMetadataName f.name && strContains f.name ".json")) := by
  induction files with
  | nil => intro meta js; simp [scanLoop]
  | cons f fs ih =>
      intro meta js
      by_cases hm : isMetadataName f.name = true
      · simp [scanLoop, hm, ih, List.filter_cons]
      · rw [Bool.not_eq_true] at hm
        by_cases hj : strContains f.name ".json" = true
        · simp [scanLoop, hm, hj, ih, List.filter_cons]
        · rw [Bool.not_eq_true] at hj
          simp [scanLoop, hm, hj, ih, List.filter_cons]

/-- If no member is metadata-named, the metadata slot stays empty. -/
theorem foldl_meta_none (files : List TarMember)
    (h : ∀ f ∈ files, isMetadataName f.name = false) :
    files.foldl (fun acc f => if isMetadataName f.name then some f else acc)
      (none : Option TarMember) = none := by
  induction files with
  | nil => rfl
  | cons f fs ih =>
      have hf := h f (List.mem_cons_self f fs)
      simp only [List.foldl_cons, hf, Bool.false_eq_true, if_false]
      exact ih fun g hg => h g (List.mem_cons_of_mem f hg)

/-- If every member is metadata-named or lacks `.json` in its name, no
data entry is collected. -/
theorem filter_json_nil (files : List TarMember)
    (h : ∀ f ∈ files, isMetadataName f.name = true ∨ strContains f.name ".json" = false) :
    files.filter (fun f => !isMetadataName f.name && strContains f.name ".json") = [] := by
  rw [List.filter_eq_nil_iff]
  intro f hf
  rcases h f hf with h1 | h1 <;> simp [h1]

/-- C6: a readable archive with no metadata-named member, or with no
non-metadata member whose name contains `.json`, makes extraction fail
with `FailExtractException` — no slice document is ever examined. -/
theorem missing_manifest_or_data_fails_extract (files : List TarMember)
    (manifest : List (String × Nat))
    (h : (∀ f ∈ files, isMetadataName f.name = false) ∨
         (∀ f ∈ files, isMetadataName f.name = true ∨ strContains f.name ".json" = false)) :
    extract_report_slices (some files) manifest = .failExtract := by
  simp only [extract_report_slices]
  rw [scanLoop_eq]
  rcases h with h | h
  · simp [foldl_meta_none files h]
  · simp [filter_json_nil files h]

/-- C6, instantiated: an archive holding a JSON data entry but no
manifest entry fails extraction. -/
theorem missing_manifest_or_data_fails_extract_witness :
    extract_report_slices (some [⟨"slice_other.json", .parsed []⟩]) [("s1", 1)]
      = .failExtract :=
  missing_manifest_or_data_fails_extract [⟨"slice_other.json", .parsed []⟩] [("s1", 1)]
    (Or.inl (by decide))

/-- A manifest identifier matching no member name leaves the
accumulated slices untouched. -/
theorem processFilesForId_no_match (rid : String) (n : Nat) :
    ∀ (jfs : List TarMember) (acc : List Doc),
      (∀ f ∈ jfs, strContains f.name rid = false) →
      processFilesForId rid n jfs acc = .done acc := by
  intro jfs
  induction jfs with
  | nil => intro acc _; rfl
  | cons f fs ih =>
      intro acc h
      have hf := h f (List.mem_cons_self f fs)
      simp only [processFilesForId, hf, Bool.false_eq_true, if_false]
      exact ih acc fun g hg => h g (List.mem_cons_of_mem f hg)

/-- A manifest none of whose identifiers matches any member name yields
the accumulated slices unchanged. -/
theorem processManifest_no_match :
    ∀ (manifest : List (String × Nat)) (jfs : List TarMember) (acc : List Doc),
      (∀ p ∈ manifest, ∀ f ∈ jfs, strContains f.name p.1 = false) →
      processManifest manifest jfs acc = .done acc := by
  intro manifest
  induction manifest with
  | nil => intro jfs acc _; rfl
  | cons p rest ih =>
      intro jfs acc h
      have h1 := processFilesForId_no_match p.1 p.2 jfs acc
        (h p (List.mem_cons_self p rest))
      simp only [processManifest, h1]
      exact ih jfs acc fun q hq => h q (List.mem_cons_of_mem p hq)

/-- C5 counterexample: an archive whose scan finds the manifest entry
and a non-empty JSON data-entry set, but in which no data-entry name
contains the single manifest slice identifier, makes
`extract_report_slices` return the empty list rather than fail with an
extraction error. -/
theorem no_matching_entry_returns_empty_list :
    (scanLoop none [] cFiles5).1.isSome = true ∧
    (scanLoop none [] cFiles5).2.isEmpty = false ∧
    extract_report_slices (some cFiles5) [("s1", 1)] = .slices [] ∧
    extract_report_slices (some cFiles5) [("s1", 1)] ≠ .failExtract :=
  ⟨rfl, rfl, rfl, fun h => nomatch h⟩

/-- C5 amended: when the scan finds a manifest entry and a non-empty
JSON data-entry set but no data-entry name contains any manifest slice
identifier, extraction returns the empty accepted-slices list without
raising (the `return report_files` at line 275 precedes the
`raise` at line 280). -/
theorem no_matches_yields_empty_slices (files : List TarMember)
    (manifest : List (String × Nat))
    (h1 : (scanLoop none [] files).2.isEmpty = false)
    (h2 : (scanLoop none [] files).1.isSome = true)
    (h3 : ∀ p ∈ manifest, ∀ f ∈ (scanLoop none [] files).2, strContains f.name p.1 = false) :
    extract_report_slices (some files) manifest = .slices [] := by
  have hdone := processManifest_no_match manifest (scanLoop none [] files).2 [] h3
  simp [extract_report_slices, h1, h2, hdone]

/-- C5 amended, instantiated at the counterexample archive. -/
theorem no_matches_yields_empty_slices_witness :
    extract_report_slices (some cFiles5) [("s1", 1)] = .slices [] :=
  no_matches_yields_empty_slices cFiles5 [("s1", 1)] rfl rfl (by decide)

/-- C7: for a manifest entry `(rid, n)` and a matching, well-formed data
entry, a self-declared identifier different from `rid` or a host count
different from `n` makes the loop discard the document and continue with
the remaining entries unchanged; a document declaring `rid` and exactly
`n` hosts is appended to the accepted output unchanged. -/
theorem slice_mismatch_skipped_match_accepted
    (rid : String) (n : Nat) (f : TarMember) (rest : List TarMember)
    (acc : List Doc) (doc : Doc)
    (hname : strContains f.name rid = true) (hdata : f.data = .parsed doc) :
    (∀ l, jLen ((getField doc "hosts").getD (.jObj [])) = some l →
        ((getField doc "report_slice_id").getD (.jStr "")).eqStr rid = false ∨ l ≠ n →
        processFilesForId rid n (f :: rest) acc = processFilesForId rid n rest acc) ∧
    (((getField doc "report_slice_id").getD (.jStr "")).eqStr rid = true →
      jLen ((getField doc "hosts").getD (.jObj [])) = some n →
      processFilesForId rid n (f :: rest) acc = processFilesForId rid n rest (acc ++ [doc])) := by
  constructor
  · intro l hl hmis
    rcases hmis with hm | hm
    · simp [processFilesForId, hname, hdata, hl, hm]
    · have hb : (l == n) = false := beq_eq_false_iff_ne.mpr hm
      simp [processFilesForId, hname, hdata, hl, hb]
  · intro hid hl
    simp [processFilesForId, hname, hdata, hl, hid]

/-- C7, instantiated: a matching document with the declared identifier
and host count is accepted unchanged. -/
theorem slice_mismatch_skipped_match_accepted_witness :
    processFilesForId "s1" 1 [⟨"r_s1.json", .parsed cDocA⟩] []
      = processFilesForId "s1" 1 [] ([] ++ [cDocA]) :=
  (slice_mismatch_skipped_match_accepted "s1" 1 ⟨"r_s1.json", .parsed cDocA⟩ [] [] cDocA
    (by decide) rfl).2 rfl rfl

/-- C8: a data entry failing UTF-8 decoding is skipped individually
(the loop proceeds to the remaining entries with the accumulator
untouched, so sibling entries can still yield accepted slices), whereas
a JSON parse failure aborts the matching loop outright, and an aborted
manifest loop makes the whole extraction fail with
`FailExtractException`. -/
theorem decode_skip_parse_fatal
    (rid : String) (n : Nat) (f : TarMember) (rest : List TarMember) (acc : List Doc)
    (hname : strContains f.name rid = true) :
    (f.data = .decodeError →
      processFilesForId rid n (f :: rest) acc = processFilesForId rid n rest acc) ∧
    (f.data = .parseError → processFilesForId rid n (f :: rest) acc = .parseAbort) ∧
    ∀ (files : List TarMember) (manifest : List (String × Nat)),
      (scanLoop none [] files).2.isEmpty = false →
      (scanLoop none [] files).1.isSome = true →
      processManifest manifest (scanLoop none [] files).2 [] = .parseAbort →
      extract_report_slices (some files) manifest = .failExtract := by
  refine ⟨?_, ?_, ?_⟩
  · intro hd
    simp [processFilesForId, hname, hd]
  · intro hd
    simp [processFilesForId, hname, hd]
  · intro files manifest h1 h2 h3
    simp [extract_report_slices, h1, h2, h3]

/-- C8, instantiated: a decode-error entry is skipped and a sibling
entry for another identifier still yields its accepted slice. -/
theorem decode_skip_parse_fatal_witness :
    processFilesForId "s1" 1 [⟨"a_s1.json", .decodeError⟩, ⟨"b_s1.json", .parsed cDocA⟩] []
      = processFilesForId "s1" 1 [⟨"b_s1.json", .parsed cDocA⟩] [] :=
  (decode_skip_parse_fatal "s1" 1 ⟨"a_s1.json", .decodeError⟩
    [⟨"b_s1.json", .parsed cDocA⟩] [] (by decide)).1 rfl

/-- C10: an unexpected exception while reading an individual archive
member (neither a `FailExtractException`, nor `tarfile.ReadError`, nor
a JSON `ValueError`) aborts the matching loop, and
`extract_report_slices` then does not raise: it logs at line 290 and
falls off its end, returning `None` to the caller. -/
theorem unexpected_error_returns_none
    (rid : String) (n : Nat) (f : TarMember) (rest : List TarMember) (acc : List Doc)
    (hname : strContains f.name rid = true) :
    (f.data = .readError → processFilesForId rid n (f :: rest) acc = .unexpectedAbort) ∧
    ∀ (files : List TarMember) (manifest : List (String × Nat)),
      (scanLoop none [] files).2.isEmpty = false →
      (scanLoop none [] files).1.isSome = true →
      processManifest manifest (scanLoop none [] files).2 [] = .unexpectedAbort →
      extract_report_slices (some files) manifest = .noneReturned := by
  constructor
  · intro hd
    simp [processFilesForId, hname, hd]
  · intro files manifest h1 h2 h3
    simp [extract_report_slices, h1, h2, h3]

/-- C10, instantiated: a member whose read raises aborts the matching
loop, and the surrounding extraction returns `None`. -/
theorem unexpected_error_returns_none_witness :
    processFilesForId "s1" 1 [⟨"a_s1.json", .readError⟩] [] = .unexpectedAbort ∧
    extract_report_slices
        (some [⟨"metadata.json", .parsed []⟩, ⟨"a_s1.json", .readError⟩]) [("s1", 1)]
      = .noneReturned :=
  ⟨(unexpected_error_returns_none "s1" 1 ⟨"a_s1.json", .readError⟩ [] [] (by decide)).1 rfl,
   (unexpected_error_returns_none "s1" 1 ⟨"a_s1.json", .readError⟩ [] [] (by decide)).2
     [⟨"metadata.json", .parsed []⟩, ⟨"a_s1.json", .readError⟩] [("s1", 1)] rfl rfl rfl⟩

/-!
Development for the "no valid records" claim: predicates describing one
slice's host list and lemmas tracking the host loop.
-/

/-- A host-list element that the loop classifies as a candidate. -/
def candElem (hv : JValue) : Bool :=
  match hv with
  | .jObj h => has_canonical_facts h
  | _ => false

/-- A host-list element the loop can process without raising: it is a
dict, and when it is a candidate it carries the `system_unique_id` the
publisher reads. -/
def hostOk (hv : JValue) : Bool :=
  match hv with
  | .jObj h => !has_canonical_facts h || (getField h "system_unique_id").isSome
  | _ => false

/-- A slice document whose host list the loop can process without
raising. -/
def docOk (doc : Doc) : Bool :=
  match (getField doc "hosts").getD (.jArr []) with
  | .jArr hvs => hvs.all hostOk
  | _ => false

/-- A slice document none of whose hosts is a candidate. -/
def sliceNoCandidates (doc : Doc) : Bool :=
  match (getField doc "hosts").getD (.jArr []) with
  | .jArr hvs => hvs.all fun hv => !candElem hv
  | _ => false

/-- Setting one key leaves every other key's value unchanged. -/
theorem getField_setField_of_ne (d : Doc) (k k' : String) (v : JValue) (hne : k' ≠ k) :
    getField (setField d k v) k' = getField d k' := by
  have hkk : (k == k') = false := beq_eq_false_iff_ne.mpr (Ne.symm hne)
  induction d with
  | nil => simp [setField, getField, hkk]
  | cons p rest ih =>
      obtain ⟨k0, v0⟩ := p
      by_cases h : (k0 == k) = true
      · have hk0 : k0 = k := eq_of_beq h
        subst hk0
        simp [setField, getField, hkk]
      · rw [Bool.not_eq_true] at h
        by_cases h2 : (k0 == k') = true <;> simp [setField, getField, h, h2, ih]

/-- Classification only reads the canonical-fact keys. -/
theorem anyFact_congr (l : List String) (h1 h2 : Host)
    (hsame : ∀ fact ∈ l, getField h1 fact = getField h2 fact) :
    (l.any fun fact => match getField h1 fact with | some v => v.truthy | none => false)
      = (l.any fun fact => match getField h2 fact with | some v => v.truthy | none => false) := by
  induction l with
  | nil => rfl
  | cons f fs ih =>
      simp only [List.any_cons]
      rw [hsame f (List.mem_cons_self f fs), ih fun g hg => hsame g (List.mem_cons_of_mem f hg)]

/-- Assigning `yupana_host_id` (line 34) does not change the
classification of a host: the key is not a canonical fact. -/
theorem has_canonical_facts_set_yupana (h : Host) (v : JValue) :
    has_canonical_facts (setField h "yupana_host_id" v) = has_canonical_facts h := by
  unfold has_canonical_facts
  apply anyFact_congr
  intro fact hf
  simp [CANONICAL_FACTS] at hf
  rcases hf with h1|h1|h1|h1|h1|h1|h1 <;> subst h1 <;>
    exact getField_setField_of_ne _ _ _ _ (by decide)

/-- The publisher's `system_unique_id` lookup is unaffected by the two
keys the loop assigns before publishing. -/
theorem getField_suid_after_sets (h : Host) (v w : JValue) :
    getField (setField (setField h "yupana_host_id" v) "report_slice_id" w) "system_unique_id"
      = getField h "system_unique_id" := by
  rw [getField_setField_of_ne _ _ _ _ (by decide), getField_setField_of_ne _ _ _ _ (by decide)]

/-- With transformation enabled, the identity chain and a successful
producer, the host loop never errors and grows `candidate_hosts` by
exactly the number of candidate elements. -/
theorem processHosts_ok_run (req : RequestObj) (sliceId : JValue) :
    ∀ (hvs : List JValue) (s : HostsLoopState),
      hvs.all hostOk = true → s.err = none →
      (processHosts req .ok true (fun x => x) sliceId hvs s).err = none ∧
      (processHosts req .ok true (fun x => x) sliceId hvs s).cand
        = s.cand + hvs.countP candElem := by
  intro hvs
  induction hvs with
  | nil =>
      intro s hall herr
      simp [processHosts, herr]
  | cons hv rest ih =>
      intro s hall herr
      rw [List.all_cons, Bool.and_eq_true] at hall
      obtain ⟨h1, h2⟩ := hall
      cases hv with
      | jObj host0 =>
          simp only [hostOk] at h1
          by_cases hc : has_canonical_facts host0 = true
          · rw [hc, Bool.not_true, Bool.false_or] at h1
            obtain ⟨v, hv⟩ := Option.isSome_iff_exists.mp h1
            have hsuid : getField (setField (setField host0 "yupana_host_id"
                (JValue.jStr ("uuid-" ++ toString s.k))) "report_slice_id" sliceId)
                "system_unique_id" = some v := by
              rw [getField_suid_after_sets]
              exact hv
            have hstep : processHosts req .ok true (fun x => x) sliceId (.jObj host0 :: rest) s
                = processHosts req .ok true (fun x => x) sliceId rest
                    ⟨some (), s.k + 1, s.cand + 1,
                     s.published ++ [⟨"add_host",
                       setField (setField host0 "yupana_host_id"
                         (JValue.jStr ("uuid-" ++ toString s.k))) "report_slice_id" sliceId,
                       ⟨v, req.b64_identity⟩⟩],
                     none⟩ := by
              simp [processHosts, has_canonical_facts_set_yupana, hc,
                    upload_to_host_inventory_via_kafka, buildUploadMsg, hsuid, send_message]
            rw [hstep]
            obtain ⟨he, hcand⟩ := ih ⟨some (), s.k + 1, s.cand + 1,
              s.published ++ [⟨"add_host",
                setField (setField host0 "yupana_host_id"
                  (JValue.jStr ("uuid-" ++ toString s.k))) "report_slice_id" sliceId,
                ⟨v, req.b64_identity⟩⟩],
              none⟩ h2 rfl
            refine ⟨he, ?_⟩
            rw [hcand, List.countP_cons]
            simp [candElem, hc]
            omega
          · rw [Bool.not_eq_true] at hc
            have hstep : processHosts req .ok true (fun x => x) sliceId (.jObj host0 :: rest) s
                = processHosts req .ok true (fun x => x) sliceId rest { s with k := s.k + 1 } := by
              simp [processHosts, has_canonical_facts_set_yupana, hc]
            rw [hstep]
            obtain ⟨he, hcand⟩ := ih { s with k := s.k + 1 } h2 (by simp [herr])
            refine ⟨he, ?_⟩
            rw [hcand, List.countP_cons]
            simp [candElem, hc]
      | jNull => simp [hostOk] at h1
      | jBool b => simp [hostOk] at h1
      | jStr t => simp [hostOk] at h1
      | jNum n => simp [hostOk] at h1
      | jArr xs => simp [hostOk] at h1

/-- The slice loop raises `QPCReportException` exactly when it reaches
a slice none of whose hosts is a candidate. -/
theorem loop_qpc_iff (req : RequestObj) :
    ∀ (slices : List Doc) (tobj : Option Unit) (k : Nat) (pub : List UploadMsg),
      slices.all docOk = true →
      ((process_report_loop req .ok true (fun x => x) slices tobj k pub).term
          = .qpcReportException
        ↔ ∃ doc ∈ slices, sliceNoCandidates doc = true) := by
  intro slices
  induction slices with
  | nil =>
      intro tobj k pub _
      simp [process_report_loop]
  | cons doc rest ih =>
      intro tobj k pub hall
      rw [List.all_cons, Bool.and_eq_true] at hall
      obtain ⟨h1, h2⟩ := hall
      rcases hh : (getField doc "hosts").getD (.jArr []) with _ | b | t | n | hvs | fs
      case jNull => simp [docOk, hh] at h1
      case jBool => simp [docOk, hh] at h1
      case jStr => simp [docOk, hh] at h1
      case jNum => simp [docOk, hh] at h1
      case jObj => simp [docOk, hh] at h1
      case jArr =>
        have h1' : hvs.all hostOk = true := by
          have hcopy := h1
          simp [docOk, hh] at hcopy
          exact List.all_eq_true.mpr hcopy
        obtain ⟨he, hcand⟩ := processHosts_ok_run req
          ((getField doc "report_slice_id").getD .jNull) hvs ⟨tobj, k, 0, pub, none⟩ h1' rfl
        simp only [process_report_loop, hh, iterElems]
        rw [he, hcand]
        simp only [Nat.zero_add]
        rcases Nat.eq_zero_or_pos (hvs.countP candElem) with hz | hz
        · have hno : sliceNoCandidates doc = true := by
            simp only [sliceNoCandidates, hh]
            rw [List.all_eq_true]
            intro a ha
            have hca := List.countP_eq_zero.mp hz a ha
            rw [Bool.not_eq_true] at hca
            simp [hca]
          rw [hz]
          simp [hno]
        · have hzne : hvs.countP candElem ≠ 0 := Nat.pos_iff_ne_zero.mp hz
          have hb : (hvs.countP candElem == 0) = false := by
            simpa using hzne
          rw [hb]
          simp only [Bool.false_eq_true, if_false]
          have hdocno : sliceNoCandidates doc = false := by
            obtain ⟨a, ha, hpa⟩ := List.countP_pos_iff.mp hz
            simp only [sliceNoCandidates, hh]
            rw [Bool.eq_false_iff]
            intro hallT
            rw [List.all_eq_true] at hallT
            have := hallT a ha
            simp [hpa] at this
          rw [ih _ _ _ h2]
          constructor
          · rintro ⟨d, hd, hp⟩
            exact ⟨d, List.mem_cons_of_mem _ hd, hp⟩
          · rintro ⟨d, hd, hp⟩
            rcases List.mem_cons.mp hd with rfl | hd'
            · rw [hp] at hdocno
              cases hdocno
            · exact ⟨d, hd', hp⟩

/-- C1 amended: with transformation enabled, an identity modifier chain,
a succeeding producer and well-formed hosts, `process_report` raises
`QPCReportException` iff some individual accepted slice contains zero
candidate records — the check at line 70 sits inside the per-slice
loop, so one candidate-free slice fails the run even when another slice
contributed candidates, and a report with no accepted slices (or whose
every slice has a candidate) completes without that failure. -/
theorem qpc_raised_iff_some_slice_without_candidates (slices : List Doc) (req : RequestObj)
    (hall : slices.all docOk = true) :
    (process_report slices true (fun x => x) req .ok).term = .qpcReportException
      ↔ ∃ doc ∈ slices, sliceNoCandidates doc = true :=
  loop_qpc_iff req slices none 0 [] hall

/-- C1 amended, instantiated: a single slice with no candidate hosts
raises the failure. -/
theorem qpc_raised_iff_some_slice_without_candidates_witness :
    (process_report [cDocB] true (fun x => x) req0 .ok).term = .qpcReportException :=
  (qpc_raised_iff_some_slice_without_candidates [cDocB] req0 rfl).mpr
    ⟨cDocB, List.mem_cons_self _ _, rfl⟩

/-- C1 counterexample: a report whose first accepted slice holds a
candidate record (which is even published) still fails with
`QPCReportException` because its second accepted slice holds none — the
claim that any report containing at least one candidate completes
without the failure is false. -/
theorem qpc_raised_despite_candidate_elsewhere :
    has_canonical_facts cHostA = true ∧
    (process_report [cDocA, cDocB] true (fun x => x) req0 .ok).published.length = 1 ∧
    (process_report [cDocA, cDocB] true (fun x => x) req0 .ok).term = .qpcReportException :=
  ⟨rfl, rfl, rfl⟩

end Yuptoo
